import Mathlib

/-!
Verification of the stat-aggregation and efficiency-scoring pipeline in
`src/tlusa/mls_scraper_2026.py` against its specification.

The embedding is a shallow one:

* a DataFrame is a list of column names plus a list of rows; a row is an
  association list from column name to an optional cell (`none` models a
  missing value / NaN);
* pandas element-wise Series arithmetic over series derived from one frame
  is modelled per row (all such series share the frame's row index, so
  element-wise combination is exactly row-wise combination);
* machine floats are modelled by `ℚ`; `Series.round(n)` is numpy's
  round-half-to-even at `n` decimal places;
* functions that can raise (`build_outfield` via `RuntimeError`,
  `export_csv` via `KeyError`) return `Except`.
-/

namespace MLS

/-- A scalar cell value of a table: text or a number.  Numbers cover
everything `pd.to_numeric` can coerce; text covers the rest. -/
inductive Val where
  | str : String → Val
  | num : ℚ → Val
deriving DecidableEq

/-- A row: association list from column name to cell.  `none` models NaN. -/
abbrev Row := List (String × Option Val)

/-- A DataFrame: ordered column names plus rows keyed by those names. -/
structure DF where
  cols : List String
  rows : List Row
deriving DecidableEq

/-- `df.empty` in pandas: some axis has length 0. -/
def dfEmpty (df : DF) : Bool := df.rows.isEmpty || df.cols.isEmpty

/-- `pd.DataFrame()`. -/
def emptyDF : DF := ⟨[], []⟩

/-- Look a column up in a row (first matching entry). -/
def getCell (r : Row) (c : String) : Option Val :=
  match r.find? (fun e => e.1 == c) with
  | some e => e.2
  | none => none

/-- `pd.to_numeric(·, errors="coerce").fillna(0)` on one cell: numbers pass
through, text and missing cells coerce to 0. -/
def cellNum : Option Val → ℚ
  | some (.num q) => q
  | _ => 0

/-- The numeric column of a DataFrame, one value per row. -/
def getColCells (df : DF) (c : String) : List (Option Val) :=
  df.rows.map (fun r => getCell r c)

/-! ### Rounding (numpy round-half-to-even, used by `Series.round`) -/

/-- Round a rational to the nearest integer, ties to even. -/
def rndInt (x : ℚ) : ℤ :=
  if x - ⌊x⌋ < 1/2 then ⌊x⌋
  else if 1/2 < x - ⌊x⌋ then ⌊x⌋ + 1
  else if 2 ∣ ⌊x⌋ then ⌊x⌋ else ⌊x⌋ + 1

/-- `Series.round(p)`: round to `p` decimal places. -/
def roundTo (p : ℕ) (x : ℚ) : ℚ := (rndInt (x * 10 ^ p) : ℚ) / 10 ^ p

/-! ### Column min / max (`Series.min`, `Series.max`) -/

/-- `s.min()`.  The `[]` case never arises in guarded uses (pandas yields
NaN there); 0 is a junk value. -/
def sMin : List ℚ → ℚ
  | [] => 0
  | x :: xs => xs.foldl min x

/-- `s.max()`. -/
def sMax : List ℚ → ℚ
  | [] => 0
  | x :: xs => xs.foldl max x

/-! ### Normalization (`minmax` at lines 210–214, `nm` at lines 314–319) -/

/-- `minmax(s)`: min-max normalize a column to 0–100, rounded to 2 decimal
places; a zero-variance column maps to the constant 50. -/
def minmaxQ (l : List ℚ) : List ℚ :=
  if sMax l = sMin l then l.map (fun _ => 50)
  else l.map (fun v => roundTo 2 ((v - sMin l) / (sMax l - sMin l) * 100))

/-- One normalized value, given the column bounds. -/
def nmVal (lo hi v : ℚ) : ℚ :=
  if hi = lo then 50 else (v - lo) / (hi - lo) * 100

/-- `nm(s, invert)` inside `compute_gk`: like `minmax` but with an optional
sign flip for lower-is-better metrics, and no rounding. -/
def nmQ (l : List ℚ) (invert : Bool) : List ℚ :=
  let s := if invert then l.map (fun v => -v) else l
  s.map (nmVal (sMin s) (sMax s))

/-! ### Metric derivation (`safe`, `p90`, lines 200–207) -/

/-- `safe(df, col)` at one row: the coerced cell if the column exists in
the frame, else 0. -/
def safeRow (cols : List String) (c : String) (r : Row) : ℚ :=
  if c ∈ cols then cellNum (getCell r c) else 0

/-- `safe(df, "90s").clip(lower=0.01)` at one row. -/
def ninesRow (cols : List String) (r : Row) : ℚ :=
  max (safeRow cols "90s" r) (1/100)

/-- `p90(s, nines)` at one element: `s.div(nines.replace(0, nan)).fillna(0)`. -/
def p90 (v n : ℚ) : ℚ := if n = 0 then 0 else v / n

/-- A per-90 rate at one row: raw stat over clipped exposure. -/
def rateRow (cols : List String) (c : String) (r : Row) : ℚ :=
  p90 (safeRow cols c r) (ninesRow cols r)

/-- `atk_raw` (lines 232–233): weighted attacking composite pre-score. -/
def atkRawRow (cols : List String) (r : Row) : ℚ :=
  rateRow cols "Gls" r * 0.20 + rateRow cols "xG" r * 0.18 +
  rateRow cols "SoT" r * 0.10 + rateRow cols "Ast" r * 0.12 +
  rateRow cols "xAG" r * 0.10 + rateRow cols "KP" r * 0.08 +
  rateRow cols "PrgP" r * 0.08 + rateRow cols "PrgC" r * 0.08 +
  rateRow cols "Att 3rd" r * 0.06

/-- `def_raw` (lines 244–245): weighted defensive composite pre-score
(`Press%` enters directly, not per-90). -/
def defRawRow (cols : List String) (r : Row) : ℚ :=
  rateRow cols "TklW" r * 0.22 + rateRow cols "Int" r * 0.20 +
  rateRow cols "Blocks" r * 0.12 + rateRow cols "Clr" r * 0.12 +
  rateRow cols "Press" r * 0.14 + safeRow cols "Press%" r * 0.10 +
  rateRow cols "Won" r * 0.10

/-! ### Storing computed columns (`df[c] = series`) -/

/-- Wrap a numeric column for storage. -/
def numCells (l : List ℚ) : List (Option Val) := l.map (fun q => some (.num q))

/-- `df[c] = vals`: store a column, aligned by row position.  Any prior
column of the same name is replaced (lookups by name see the new values;
our stored names are fresh in every scored frame, so the position of a
replaced column is immaterial). -/
def setCol (df : DF) (c : String) (vals : List (Option Val)) : DF :=
  ⟨df.cols.filter (fun c2 => !(c2 == c)) ++ [c],
   (List.range df.rows.length).map (fun i =>
     (df.rows.getD i []).filter (fun e => !(e.1 == c)) ++ [(c, vals.getD i none)])⟩

/-- `compute_outfield` (lines 217–267): stores the two minmax-normalized
efficiency scores and the per-90 rate columns.  All series are computed
from the incoming frame before any assignment, as in the source. -/
def computeOutfield (df : DF) : DF :=
  let cs := df.cols
  let store : List (String × List ℚ) :=
    [("Attacking_Efficiency", minmaxQ (df.rows.map (atkRawRow cs))),
     ("Defensive_Efficiency", minmaxQ (df.rows.map (defRawRow cs))),
     ("Goals_p90",         df.rows.map (fun r => roundTo 3 (rateRow cs "Gls" r))),
     ("xG_p90",            df.rows.map (fun r => roundTo 3 (rateRow cs "xG" r))),
     ("Assists_p90",       df.rows.map (fun r => roundTo 3 (rateRow cs "Ast" r))),
     ("xAG_p90",           df.rows.map (fun r => roundTo 3 (rateRow cs "xAG" r))),
     ("SoT_p90",           df.rows.map (fun r => roundTo 3 (rateRow cs "SoT" r))),
     ("KeyPasses_p90",     df.rows.map (fun r => roundTo 3 (rateRow cs "KP" r))),
     ("ProgPasses_p90",    df.rows.map (fun r => roundTo 3 (rateRow cs "PrgP" r))),
     ("ProgCarries_p90",   df.rows.map (fun r => roundTo 3 (rateRow cs "PrgC" r))),
     ("Tkl_Won_p90",       df.rows.map (fun r => roundTo 3 (rateRow cs "TklW" r))),
     ("Interceptions_p90", df.rows.map (fun r => roundTo 3 (rateRow cs "Int" r))),
     ("Blocks_p90",        df.rows.map (fun r => roundTo 3 (rateRow cs "Blocks" r))),
     ("Clearances_p90",    df.rows.map (fun r => roundTo 3 (rateRow cs "Clr" r))),
     ("Pressures_p90",     df.rows.map (fun r => roundTo 3 (rateRow cs "Press" r))),
     ("Press_pct",         df.rows.map (fun r => roundTo 1 (safeRow cs "Press%" r)))]
  store.foldl (fun d p => setCol d p.1 (numCells p.2)) df

/-- The weighted goalkeeper composite column (lines 305–327): seven
independently `nm`-normalized metrics combined with fixed weights.
Element-wise Series arithmetic is written out by row position. -/
def gkScoreCol (df : DF) : List ℚ :=
  let cs := df.cols
  let svN   := nmQ (df.rows.map (safeRow cs "Save%")) false
  let psxgN := nmQ (df.rows.map (rateRow cs "PSxG-GA")) false
  let gaN   := nmQ (df.rows.map (rateRow cs "GA")) true
  let csN   := nmQ (df.rows.map (safeRow cs "CS%")) false
  let cmpN  := nmQ (df.rows.map (safeRow cs "Cmp%")) false
  let stpN  := nmQ (df.rows.map (safeRow cs "Stp%")) false
  let opaN  := nmQ (df.rows.map (rateRow cs "#OPA")) false
  (List.range df.rows.length).map (fun i =>
    svN.getD i 0 * 0.22 + psxgN.getD i 0 * 0.22 + gaN.getD i 0 * 0.15 +
    csN.getD i 0 * 0.12 + cmpN.getD i 0 * 0.10 + stpN.getD i 0 * 0.10 +
    opaN.getD i 0 * 0.09)

/-- `compute_gk` (lines 301–333): stores the rounded composite and the two
goalkeeper per-90 rate columns (`GA_p90` at 3 decimals, `PSxG-GA_p90` at 4). -/
def computeGK (df : DF) : DF :=
  let cs := df.cols
  setCol
    (setCol
      (setCol df "GK_Efficiency" (numCells ((gkScoreCol df).map (roundTo 2))))
      "GA_p90" (numCells (df.rows.map (fun r => roundTo 3 (rateRow cs "GA" r)))))
    "PSxG-GA_p90" (numCells (df.rows.map (fun r => roundTo 4 (rateRow cs "PSxG-GA" r))))

/-! ### Merging (`_merge`, lines 164–178) -/

/-- Columns identifying a player row; the join keys. -/
def MERGE_KEYS : List String := ["Player", "Squad"]

/-- The identity key of a row.  pandas matches NaN join keys with NaN,
which `Option` equality mirrors. -/
def rowKey (r : Row) : Option Val × Option Val :=
  (getCell r "Player", getCell r "Squad")

/-- Drop a set of columns from a frame (`DataFrame.drop(columns=...)`). -/
def dropColsDF (df : DF) (drop : List String) : DF :=
  ⟨df.cols.filter (fun c => !(decide (c ∈ drop))),
   df.rows.map (fun r => r.filter (fun e => !(decide (e.1 ∈ drop))))⟩

/-- The non-key part of a supplemental row, appended to a matched base row. -/
def stripKeys (r : Row) : Row := r.filter (fun e => !(decide (e.1 ∈ MERGE_KEYS)))

/-- The all-NaN supplemental part used when a base row has no match. -/
def nullSupp (cols : List String) : Row :=
  (cols.filter (fun c => !(decide (c ∈ MERGE_KEYS)))).map (fun c => (c, (none : Option Val)))

/-- `base.merge(supp, on=MERGE_KEYS, how="left")`: each base row is paired
with every key-matching supplemental row (NaN-filled when none matches).
Key columns are assumed present in both frames, as pandas requires. -/
def leftJoin (base supp : DF) : DF :=
  ⟨base.cols ++ supp.cols.filter (fun c => !(decide (c ∈ MERGE_KEYS))),
   base.rows.flatMap (fun r =>
     match supp.rows.filter (fun s => decide (rowKey s = rowKey r)) with
     | [] => [r ++ nullSupp supp.cols]
     | ms => ms.map (fun s => r ++ stripKeys s))⟩

/-- `_merge(base, supplement)`: skip empty supplements, drop colliding
non-key columns from the supplemental side, then left-join. -/
def mergeT (base supp : DF) : DF :=
  if dfEmpty supp then base
  else
    let drop := supp.cols.filter (fun c => decide (c ∈ base.cols) && !(decide (c ∈ MERGE_KEYS)))
    leftJoin base (dropColsDF supp drop)

/-- Fold `_merge` over an ordered list of supplemental tables, as
`build_outfield` does. -/
def mergeAll (base : DF) (supps : List DF) : DF := supps.foldl mergeT base

/-! ### Building the per-class frames (lines 185–197, 286–298) -/

/-- `raw.get(key, pd.DataFrame())`. -/
def rawGet (raw : List (String × DF)) (k : String) : DF :=
  match raw.find? (fun e => e.1 == k) with
  | some e => e.2
  | none => emptyDF

/-- `Pos.astype(str).str.contains("GK", na=False)` on one cell: numeric
string forms never contain "GK"; NaN yields false. -/
def posHasGK : Option Val → Bool
  | some (.str s) => 2 ≤ (s.splitOn "GK").length
  | _ => false

/-- Errors raised while building a class frame. -/
inductive BuildErr where
  | missingBase
deriving DecidableEq

/-- `build_outfield`: raises (RuntimeError) when the mandatory standard
table is empty; otherwise drops goalkeepers and folds in the four
supplemental tables. -/
def buildOutfield (raw : List (String × DF)) : Except BuildErr DF :=
  let base := rawGet raw "standard"
  if dfEmpty base then .error .missingBase
  else
    let b :=
      if "Pos" ∈ base.cols then
        ⟨base.cols, base.rows.filter (fun r => !(posHasGK (getCell r "Pos")))⟩
      else base
    .ok (mergeAll b
      [rawGet raw "shooting", rawGet raw "passing",
       rawGet raw "defense", rawGet raw "possession"])

/-- `build_gk`: an empty goalkeeper base table yields an empty frame with
no error; otherwise merge the advanced table and keep GK rows. -/
def buildGK (raw : List (String × DF)) : Except BuildErr DF :=
  let gk := rawGet raw "gk"
  let adv := rawGet raw "gk_adv"
  if dfEmpty gk then .ok emptyDF
  else
    let merged := mergeT gk adv
    .ok (if "Pos" ∈ merged.cols then
           ⟨merged.cols, merged.rows.filter (fun r => posHasGK (getCell r "Pos"))⟩
         else merged)

/-! ### Orchestration (`main`, lines 377–401) -/

/-- `MIN_90S`: the minimum-exposure threshold, in 90-minute units. -/
def MIN_90S : ℚ := 1

/-- The min-minutes filter of `main` (lines 383–384 and 396–397). -/
def filterMin90 (df : DF) : DF :=
  ⟨df.cols, df.rows.filter (fun r => decide (MIN_90S ≤ cellNum (getCell r "90s")))⟩

/-- The outfield half of `main`: any exception (missing base table, or a
missing `90s` column at the filter) leaves an empty frame. -/
def mainOutfield (raw : List (String × DF)) : DF :=
  match buildOutfield raw with
  | .error _ => emptyDF
  | .ok b =>
    let s := computeOutfield b
    if "90s" ∈ s.cols then filterMin90 s else emptyDF

/-- The goalkeeper half of `main`: an empty built frame skips scoring and
filtering. -/
def mainGK (raw : List (String × DF)) : DF :=
  match buildGK raw with
  | .error _ => emptyDF
  | .ok g =>
    if dfEmpty g then g
    else
      let s := computeGK g
      if "90s" ∈ s.cols then filterMin90 s else emptyDF

/-! ### Export (`export_csv`, lines 348–360)

`sort_values(col, ascending=False)` goes through pandas `nargsort`: it
reverses the key array, takes numpy's ascending argsort, and reverses the
resulting indexer.  The source uses the default `kind='quicksort'`
(numpy introsort), whose order among equal keys is implementation-defined
and not stable beyond numpy's small-array insertion-sort fallback.  The
model below fixes one concrete deterministic argsort (insertion sort), so
only conclusions that are insensitive to the tie order — membership,
permutation, row counts, and the empty case — are read off it; no theorem
in this file asserts a tie-order guarantee for the export. -/

/-- Insert into a sorted list, before the first element not below it. -/
def insertLe (le : α → α → Bool) (x : α) : List α → List α
  | [] => [x]
  | y :: ys => if le x y then x :: y :: ys else y :: insertLe le x ys

/-- Insertion sort. -/
def isortLe (le : α → α → Bool) : List α → List α
  | [] => []
  | x :: xs => insertLe le x (isortLe le xs)

/-- pandas `nargsort(keys, ascending=False)`: the row indexer of the
descending sort, with one fixed deterministic argsort standing in for the
unstable numpy default (see the section comment). -/
def nargsortDesc (keys : List ℚ) : List ℕ :=
  (isortLe (fun i j => decide (keys.getD i 0 ≤ keys.getD j 0))
    ((List.range keys.length).reverse)).reverse

/-- `df[available]`: project a row onto an ordered column subset. -/
def projectRow (available : List String) (r : Row) : Row :=
  available.map (fun c => (c, getCell r c))

/-- Errors raised inside `export_csv` (a missing sort column is a pandas
`KeyError`). -/
inductive ExpErr where
  | keyNotFound
deriving DecidableEq

/-- What `export_csv` produces: the file written by `to_csv` (header and
data rows; `none` would mean no file) and the returned frame. -/
structure ExportOut where
  written : Option (List String × List Row)
  result : DF
deriving DecidableEq

/-- `export_csv(df, col_order, path, sort_col)` with the exposure
threshold as an explicit parameter in place of the global `MIN_90S`. -/
def exportCsv (df : DF) (colOrder : List String) (sortCol : String)
    (minNines : ℚ) : Except ExpErr ExportOut :=
  let available := colOrder.filter (fun c => decide (c ∈ df.cols))
  let outRows := df.rows.map (projectRow available)
  let filtered :=
    if "90s" ∈ available then
      outRows.filter (fun r => decide (minNines ≤ cellNum (getCell r "90s")))
    else outRows
  if sortCol ∈ available then
    let keys := filtered.map (fun r => cellNum (getCell r sortCol))
    let ix := nargsortDesc keys
    let sorted := ix.filterMap (fun i => filtered[i]?)
    .ok ⟨some (available, sorted), ⟨available, sorted⟩⟩
  else .error .keyNotFound

/-! ### Spec-side predicates and concrete fixtures -/

/-- The spec's §3 invariant: the identity key is unique within a table. -/
def keysUnique (df : DF) : Prop := (df.rows.map rowKey).Nodup

instance (df : DF) : Decidable (keysUnique df) := by
  unfold keysUnique
  infer_instance

/-- A minimal outfield row fixture. -/
def rowOf (p sq : String) (nines gls : ℚ) : Row :=
  [("Player", some (.str p)), ("Squad", some (.str sq)),
   ("90s", some (.num nines)), ("Gls", some (.num gls))]

/-- Two players, one of them with zero minutes. -/
def dfTwo : DF :=
  ⟨["Player", "Squad", "90s", "Gls"], [rowOf "A" "X" 10 10, rowOf "B" "X" 0 0]⟩

/-- The same batch with the zero-minute player excluded. -/
def dfOne : DF :=
  ⟨["Player", "Squad", "90s", "Gls"], [rowOf "A" "X" 10 10]⟩

/-- A goalkeeper frame whose `PSxG-GA` per-90 rate is 1/3. -/
def dfGKfix : DF :=
  ⟨["Player", "Squad", "90s", "PSxG-GA"],
   [[("Player", some (.str "G")), ("Squad", some (.str "X")),
     ("90s", some (.num 3)), ("PSxG-GA", some (.num 1))]]⟩

/-- An export fixture: a tie on the sort key, one row exactly at the
exposure threshold, and one zero-exposure row. -/
def dfExp : DF :=
  ⟨["Player", "90s", "Eff"],
   [[("Player", some (.str "P1")), ("90s", some (.num 1)), ("Eff", some (.num 5))],
    [("Player", some (.str "P2")), ("90s", some (.num 2)), ("Eff", some (.num 7))],
    [("Player", some (.str "P3")), ("90s", some (.num 2)), ("Eff", some (.num 5))],
    [("Player", some (.str "P4")), ("90s", some (.num 0)), ("Eff", some (.num 9))]]⟩

/-- An export fixture whose only row falls below the exposure threshold. -/
def dfBelow : DF :=
  ⟨["Player", "90s", "Eff"],
   [[("Player", some (.str "P")), ("90s", some (.num 0)), ("Eff", some (.num 9))]]⟩

/-- A three-row merge base. -/
def base3 : DF :=
  ⟨["Player", "Squad", "Gls"],
   [[("Player", some (.str "A")), ("Squad", some (.str "X")), ("Gls", some (.num 1))],
    [("Player", some (.str "B")), ("Squad", some (.str "X")), ("Gls", some (.num 2))],
    [("Player", some (.str "C")), ("Squad", some (.str "Y")), ("Gls", some (.num 3))]]⟩

/-- A one-row supplement carrying a colliding `Gls` column. -/
def supp1 : DF :=
  ⟨["Player", "Squad", "Gls", "KP"],
   [[("Player", some (.str "A")), ("Squad", some (.str "X")),
     ("Gls", some (.num 99)), ("KP", some (.num 4))]]⟩

/-- Scraped input whose goalkeeper base table is empty (the advanced
table is not). -/
def rawGkEmpty : List (String × DF) := [("gk", emptyDF), ("gk_adv", supp1)]

/-- Scraped input with no usable standard table. -/
def rawStdEmpty : List (String × DF) := [("standard", emptyDF), ("gk", base3)]

/-! ## Helper lemmas -/

theorem find?_filter_of_name (r : Row) (c : String) (p : String × Option Val → Bool)
    (h : ∀ e : String × Option Val, e.1 = c → p e = true) :
    (r.filter p).find? (fun e => e.1 == c) = r.find? (fun e => e.1 == c) := by
  induction r with
  | nil => rfl
  | cons e rest ih =>
    by_cases hp : p e = true
    · rw [List.filter_cons_of_pos hp]
      cases hc : (e.1 == c)
      · simp only [List.find?_cons, hc]
        exact ih
      · simp only [List.find?_cons, hc]
    · have hc : (e.1 == c) = false := by
        rw [Bool.eq_false_iff]
        intro hcc
        exact hp (h e (by simpa using hcc))
      rw [List.filter_cons_of_neg hp]
      conv_rhs => rw [List.find?_cons]
      simp only [hc]
      exact ih

theorem getCell_append (r s : Row) (c : String) :
    getCell (r ++ s) c =
      match r.find? (fun e => e.1 == c) with
      | some e => e.2
      | none => getCell s c := by
  unfold getCell
  rw [List.find?_append]
  cases r.find? (fun e => e.1 == c) <;> simp [Option.or]

theorem getCell_filter_not_name (r : Row) (c n : String) (h : c ≠ n) :
    getCell (r.filter (fun e => !(e.1 == n))) c = getCell r c := by
  unfold getCell
  rw [find?_filter_of_name]
  intro e he
  simp [he, h]

theorem getCell_filter_not_mem (r : Row) (c : String) (drop : List String)
    (h : c ∉ drop) :
    getCell (r.filter (fun e => !(decide (e.1 ∈ drop)))) c = getCell r c := by
  unfold getCell
  rw [find?_filter_of_name]
  intro e he
  simp [he, h]

theorem getCell_setColRow_ne (r : Row) (c c2 : String) (v : Option Val)
    (h : c2 ≠ c) :
    getCell ((r.filter (fun e => !(e.1 == c))) ++ [(c, v)]) c2 = getCell r c2 := by
  rw [getCell_append, find?_filter_of_name r c2 _ (by intro e he; simp [he, h])]
  cases hf : r.find? (fun e => e.1 == c2) with
  | some e => unfold getCell; rw [hf]
  | none => unfold getCell; rw [hf]; simp [Ne.symm h]

theorem getCell_setColRow_self (r : Row) (c : String) (v : Option Val) :
    getCell ((r.filter (fun e => !(e.1 == c))) ++ [(c, v)]) c = v := by
  rw [getCell_append]
  have hf : (r.filter (fun e => !(e.1 == c))).find? (fun e => e.1 == c) = none := by
    rw [List.find?_eq_none]
    intro e he
    have := (List.mem_filter.mp he).2
    simpa using this
  rw [hf]
  simp [getCell]

theorem map_range_getD (l : List α) (d : α) (f : α → β) :
    (List.range l.length).map (fun i => f (l.getD i d)) = l.map f := by
  induction l with
  | nil => rfl
  | cons x xs ih =>
    rw [List.length_cons, List.range_succ_eq_map, List.map_cons, List.map_map]
    simp only [Function.comp_def, Nat.succ_eq_add_one, List.getD_cons_succ,
      List.getD_cons_zero]
    rw [ih, List.map_cons]

theorem map_range_getD_self (l : List α) (d : α) :
    (List.range l.length).map (fun i => l.getD i d) = l := by
  have h := map_range_getD l d id
  simp only [id_eq, List.map_id] at h
  exact h

theorem setCol_rows_length (df : DF) (c : String) (vals : List (Option Val)) :
    (setCol df c vals).rows.length = df.rows.length := by
  simp [setCol]

theorem setCol_cols_mem (df : DF) (c c2 : String) (vals : List (Option Val)) :
    c2 ∈ (setCol df c vals).cols ↔ (c2 ∈ df.cols ∧ c2 ≠ c) ∨ c2 = c := by
  simp [setCol]

theorem getColCells_setCol_ne (df : DF) (c c2 : String) (vals : List (Option Val))
    (h : c2 ≠ c) :
    getColCells (setCol df c vals) c2 = getColCells df c2 := by
  unfold getColCells setCol
  rw [List.map_map]
  have : ((fun r => getCell r c2) ∘ fun i =>
      (df.rows.getD i []).filter (fun e => !(e.1 == c)) ++ [(c, vals.getD i none)]) =
      fun i => getCell (df.rows.getD i []) c2 := by
    funext i
    exact getCell_setColRow_ne _ _ _ _ h
  rw [this]
  exact map_range_getD df.rows [] (fun r => getCell r c2)

theorem getColCells_setCol_self (df : DF) (c : String) (vals : List (Option Val))
    (hlen : vals.length = df.rows.length) :
    getColCells (setCol df c vals) c = vals := by
  unfold getColCells setCol
  rw [List.map_map]
  have : ((fun r => getCell r c) ∘ fun i =>
      (df.rows.getD i []).filter (fun e => !(e.1 == c)) ++ [(c, vals.getD i none)]) =
      fun i => vals.getD i none := by
    funext i
    exact getCell_setColRow_self _ _ _
  rw [this, ← hlen]
  exact map_range_getD_self vals none

theorem setCol_rows_getElem? (df : DF) (c : String) (vals : List (Option Val))
    (i : ℕ) (hi : i < df.rows.length) :
    (setCol df c vals).rows[i]? =
      some ((df.rows.getD i []).filter (fun e => !(e.1 == c)) ++ [(c, vals.getD i none)]) := by
  simp [setCol, List.getElem?_range, hi]

/-! ### Bounds for `Series.min` / `Series.max` -/

theorem foldl_min_le_init (xs : List ℚ) (a : ℚ) : xs.foldl min a ≤ a := by
  induction xs generalizing a with
  | nil => exact le_refl a
  | cons x xs ih =>
    calc (x :: xs).foldl min a = xs.foldl min (min a x) := rfl
    _ ≤ min a x := ih _
    _ ≤ a := min_le_left _ _

theorem foldl_min_le_mem (xs : List ℚ) (a x : ℚ) (hx : x ∈ xs) :
    xs.foldl min a ≤ x := by
  induction xs generalizing a with
  | nil => cases hx
  | cons y ys ih =>
    rcases List.mem_cons.mp hx with h | h
    · subst h
      calc (x :: ys).foldl min a = ys.foldl min (min a x) := rfl
      _ ≤ min a x := foldl_min_le_init _ _
      _ ≤ x := min_le_right _ _
    · exact ih _ h

theorem init_le_foldl_max (xs : List ℚ) (a : ℚ) : a ≤ xs.foldl max a := by
  induction xs generalizing a with
  | nil => exact le_refl a
  | cons x xs ih =>
    calc a ≤ max a x := le_max_left _ _
    _ ≤ xs.foldl max (max a x) := ih _
    _ = (x :: xs).foldl max a := rfl

theorem mem_le_foldl_max (xs : List ℚ) (a x : ℚ) (hx : x ∈ xs) :
    x ≤ xs.foldl max a := by
  induction xs generalizing a with
  | nil => cases hx
  | cons y ys ih =>
    rcases List.mem_cons.mp hx with h | h
    · subst h
      calc x ≤ max a x := le_max_right _ _
      _ ≤ ys.foldl max (max a x) := init_le_foldl_max _ _
      _ = (x :: ys).foldl max a := rfl
    · exact ih _ h

theorem sMin_le (l : List ℚ) (x : ℚ) (hx : x ∈ l) : sMin l ≤ x := by
  cases l with
  | nil => cases hx
  | cons y ys =>
    rcases List.mem_cons.mp hx with h | h
    · subst h; exact foldl_min_le_init _ _
    · exact foldl_min_le_mem _ _ _ h

theorem le_sMax (l : List ℚ) (x : ℚ) (hx : x ∈ l) : x ≤ sMax l := by
  cases l with
  | nil => cases hx
  | cons y ys =>
    rcases List.mem_cons.mp hx with h | h
    · subst h; exact init_le_foldl_max _ _
    · exact mem_le_foldl_max _ _ _ h

/-! ### Bounds for rounding -/

theorem floor_le_rndInt (x : ℚ) : ⌊x⌋ ≤ rndInt x := by
  unfold rndInt
  split_ifs <;> omega

theorem rndInt_le_ceil (x : ℚ) : rndInt x ≤ ⌈x⌉ := by
  unfold rndInt
  split_ifs with h1 h2 h3
  · exact Int.floor_le_ceil x
  · have hfl : (⌊x⌋ : ℚ) < x := by linarith
    have : ⌊x⌋ < ⌈x⌉ := by
      have hx : x ≤ (⌈x⌉ : ℚ) := Int.le_ceil x
      exact_mod_cast lt_of_lt_of_le hfl hx
    omega
  · exact Int.floor_le_ceil x
  · have hfl : (⌊x⌋ : ℚ) < x := by linarith
    have : ⌊x⌋ < ⌈x⌉ := by
      have hx : x ≤ (⌈x⌉ : ℚ) := Int.le_ceil x
      exact_mod_cast lt_of_lt_of_le hfl hx
    omega

theorem roundTo_nonneg (p : ℕ) (x : ℚ) (h : 0 ≤ x) : 0 ≤ roundTo p x := by
  unfold roundTo
  apply div_nonneg _ (by positivity)
  have h1 : (0 : ℤ) ≤ ⌊x * 10 ^ p⌋ := Int.floor_nonneg.mpr (by positivity)
  have h2 := floor_le_rndInt (x * 10 ^ p)
  exact_mod_cast le_trans h1 h2

theorem roundTo_le_int (p : ℕ) (x : ℚ) (n : ℤ) (h : x ≤ n) : roundTo p x ≤ n := by
  unfold roundTo
  rw [div_le_iff₀ (by positivity)]
  have h1 : ⌈x * 10 ^ p⌉ ≤ n * 10 ^ p := by
    apply Int.ceil_le.mpr
    push_cast
    have : (0:ℚ) ≤ 10 ^ p := by positivity
    nlinarith
  have h2 := rndInt_le_ceil (x * 10 ^ p)
  have : rndInt (x * 10 ^ p) ≤ n * 10 ^ p := le_trans h2 h1
  calc (rndInt (x * 10 ^ p) : ℚ) ≤ ((n * 10 ^ p : ℤ) : ℚ) := by exact_mod_cast this
  _ = (n : ℚ) * 10 ^ p := by push_cast; ring

/-! ### Range of normalized scores -/

theorem nmVal_bounds (s : List ℚ) (v : ℚ) (hv : v ∈ s) :
    0 ≤ nmVal (sMin s) (sMax s) v ∧ nmVal (sMin s) (sMax s) v ≤ 100 := by
  unfold nmVal
  split_ifs with h
  · norm_num
  · have hlo := sMin_le s v hv
    have hhi := le_sMax s v hv
    have hlt : sMin s < sMax s := lt_of_le_of_ne (le_trans hlo hhi) (Ne.symm h)
    have hpos : 0 < sMax s - sMin s := by linarith
    constructor
    · apply mul_nonneg _ (by norm_num)
      exact div_nonneg (by linarith) (le_of_lt hpos)
    · have hdiv : (v - sMin s) / (sMax s - sMin s) ≤ 1 :=
        (div_le_one hpos).mpr (by linarith)
      nlinarith

theorem mem_minmaxQ_bounds (l : List ℚ) (y : ℚ) (hy : y ∈ minmaxQ l) :
    0 ≤ y ∧ y ≤ 100 := by
  unfold minmaxQ at hy
  split_ifs at hy with h
  · rcases List.mem_map.mp hy with ⟨v, _, hv⟩
    subst hv; norm_num
  · rcases List.mem_map.mp hy with ⟨v, hvl, hv⟩
    subst hv
    have hb : 0 ≤ nmVal (sMin l) (sMax l) v ∧ nmVal (sMin l) (sMax l) v ≤ 100 :=
      nmVal_bounds l v hvl
    rw [nmVal, if_neg h] at hb
    constructor
    · exact roundTo_nonneg _ _ hb.1
    · have := roundTo_le_int 2 _ 100 (by exact_mod_cast hb.2)
      exact_mod_cast this

theorem mem_nmQ_bounds (l : List ℚ) (b : Bool) (y : ℚ) (hy : y ∈ nmQ l b) :
    0 ≤ y ∧ y ≤ 100 := by
  simp only [nmQ] at hy
  rcases List.mem_map.mp hy with ⟨v, hvl, hv⟩
  subst hv
  exact nmVal_bounds _ v hvl

/-! ### Sorting machinery -/

theorem insertLe_perm (le : α → α → Bool) (x : α) (l : List α) :
    (insertLe le x l).Perm (x :: l) := by
  induction l with
  | nil => exact List.Perm.refl _
  | cons y ys ih =>
    unfold insertLe
    split_ifs with h
    · exact List.Perm.refl _
    · exact (ih.cons y).trans (List.Perm.swap x y ys)

theorem isortLe_perm (le : α → α → Bool) (l : List α) :
    (isortLe le l).Perm l := by
  induction l with
  | nil => exact List.Perm.refl _
  | cons x xs ih =>
    exact (insertLe_perm le x (isortLe le xs)).trans (ih.cons x)

theorem nargsortDesc_perm (keys : List ℚ) :
    (nargsortDesc keys).Perm (List.range keys.length) := by
  unfold nargsortDesc
  exact ((List.reverse_perm _).trans (isortLe_perm _ _)).trans (List.reverse_perm _)

theorem filterMap_getElem?_range (l : List α) :
    (List.range l.length).filterMap (fun i => l[i]?) = l := by
  induction l with
  | nil => rfl
  | cons x xs ih =>
    rw [List.length_cons, List.range_succ_eq_map, List.filterMap_cons]
    simp only [List.getElem?_cons_zero]
    rw [List.filterMap_map]
    have h : ((fun i => (x :: xs)[i]?) ∘ Nat.succ) = fun i => xs[i]? := by
      funext i
      simp
    rw [h, ih]

theorem perm_filterMap_range (l : List α) (ix : List ℕ)
    (h : ix.Perm (List.range l.length)) :
    (ix.filterMap (fun i => l[i]?)).Perm l := by
  have h2 := h.filterMap (fun i => l[i]?)
  rw [filterMap_getElem?_range] at h2
  exact h2

theorem getElem?_eq_getD (l : List α) (d : α) (i : ℕ) (hi : i < l.length) :
    l[i]? = some (l.getD i d) := by
  rw [List.getD_eq_getElem?_getD, List.getElem?_eq_getElem hi]
  rfl

/-! ### Merge machinery -/

theorem length_filter_key_le_one (rows : List Row) (k : Option Val × Option Val)
    (h : (rows.map rowKey).Nodup) :
    (rows.filter (fun s => decide (rowKey s = k))).length ≤ 1 := by
  induction rows with
  | nil => simp
  | cons r rest ih =>
    rw [List.map_cons, List.nodup_cons] at h
    by_cases hk : rowKey r = k
    · rw [List.filter_cons_of_pos (by simpa using hk)]
      have hnil : rest.filter (fun s => decide (rowKey s = k)) = [] := by
        rw [List.filter_eq_nil_iff]
        intro s hs
        simp only [decide_eq_true_eq]
        intro he
        exact h.1 (List.mem_map.mpr ⟨s, hs, by rw [he, hk]⟩)
      rw [hnil]
      simp
    · rw [List.filter_cons_of_neg (by simpa using hk)]
      exact ih h.2

theorem leftJoin_row_shape (supp : DF) (hsupp : keysUnique supp) (r : Row) :
    ∃ ext, (match supp.rows.filter (fun s => decide (rowKey s = rowKey r)) with
            | [] => [r ++ nullSupp supp.cols]
            | ms => ms.map (fun s => r ++ stripKeys s)) = [r ++ ext] := by
  cases hm : supp.rows.filter (fun s => decide (rowKey s = rowKey r)) with
  | nil => exact ⟨nullSupp supp.cols, rfl⟩
  | cons m ms =>
    have hlen := length_filter_key_le_one supp.rows (rowKey r) hsupp
    rw [hm] at hlen
    have hnil : ms = [] := by
      rw [List.length_cons] at hlen
      exact List.eq_nil_of_length_eq_zero (by omega)
    subst hnil
    exact ⟨stripKeys m, rfl⟩

theorem flatMap_singleton_length (l : List α) (f : α → List β)
    (h : ∀ a ∈ l, ∃ b, f a = [b]) : (l.flatMap f).length = l.length := by
  induction l with
  | nil => rfl
  | cons x xs ih =>
    rw [List.flatMap_cons, List.length_append, List.length_cons,
      ih (fun a ha => h a (List.mem_cons_of_mem x ha))]
    rcases h x (List.mem_cons_self x xs) with ⟨b, hb⟩
    rw [hb]
    simp only [List.length_singleton]
    omega

theorem flatMap_singleton_getElem? (l : List Row) (f : Row → List Row)
    (h : ∀ a ∈ l, ∃ ext, f a = [a ++ ext]) (i : ℕ) (hi : i < l.length) :
    ∃ ext, (l.flatMap f)[i]? = some ((l.getD i []) ++ ext) := by
  induction l generalizing i with
  | nil => cases hi
  | cons x xs ih =>
    rcases h x (List.mem_cons_self x xs) with ⟨ext, hext⟩
    rw [List.flatMap_cons, hext]
    cases i with
    | zero => exact ⟨ext, by simp⟩
    | succ n =>
      rw [List.length_cons] at hi
      rcases ih (fun a ha => h a (List.mem_cons_of_mem x ha)) n (by omega)
        with ⟨ext2, hext2⟩
      refine ⟨ext2, ?_⟩
      rw [List.cons_append, List.nil_append, List.getElem?_cons_succ,
        List.getD_cons_succ, hext2]

theorem rowKey_filter_drop (r : Row) (drop : List String)
    (hp : "Player" ∉ drop) (hs : "Squad" ∉ drop) :
    rowKey (r.filter (fun e => !(decide (e.1 ∈ drop)))) = rowKey r := by
  unfold rowKey
  rw [getCell_filter_not_mem _ _ _ hp, getCell_filter_not_mem _ _ _ hs]

theorem keysUnique_dropColsDF (supp : DF) (drop : List String)
    (hp : "Player" ∉ drop) (hs : "Squad" ∉ drop) (h : keysUnique supp) :
    keysUnique (dropColsDF supp drop) := by
  unfold keysUnique dropColsDF at *
  simp only [List.map_map]
  have he : (rowKey ∘ fun r : Row => r.filter (fun e => !(decide (e.1 ∈ drop)))) =
      rowKey := by
    funext r
    exact rowKey_filter_drop r drop hp hs
  rw [he]
  exact h

theorem mergeT_preserves (base supp : DF) (hsupp : keysUnique supp) :
    (mergeT base supp).rows.length = base.rows.length ∧
    ∀ i, i < base.rows.length →
      ∃ ext, (mergeT base supp).rows[i]? = some ((base.rows.getD i []) ++ ext) := by
  unfold mergeT
  split_ifs with h
  · refine ⟨rfl, fun i hi => ⟨[], ?_⟩⟩
    rw [List.append_nil]
    exact getElem?_eq_getD base.rows [] i hi
  · set supp2 := dropColsDF supp
      (supp.cols.filter (fun c => decide (c ∈ base.cols) && !(decide (c ∈ MERGE_KEYS))))
      with hsupp2
    have hp : "Player" ∉ supp.cols.filter
        (fun c => decide (c ∈ base.cols) && !(decide (c ∈ MERGE_KEYS))) := by
      intro hmem
      have := (List.mem_filter.mp hmem).2
      simp [MERGE_KEYS] at this
    have hq : "Squad" ∉ supp.cols.filter
        (fun c => decide (c ∈ base.cols) && !(decide (c ∈ MERGE_KEYS))) := by
      intro hmem
      have := (List.mem_filter.mp hmem).2
      simp [MERGE_KEYS] at this
    have hu : keysUnique supp2 := keysUnique_dropColsDF supp _ hp hq hsupp
    have hshape : ∀ r ∈ base.rows, ∃ ext,
        (match supp2.rows.filter (fun s => decide (rowKey s = rowKey r)) with
         | [] => [r ++ nullSupp supp2.cols]
         | ms => ms.map (fun s => r ++ stripKeys s)) = [r ++ ext] :=
      fun r _ => leftJoin_row_shape supp2 hu r
    constructor
    · exact flatMap_singleton_length base.rows _
        (fun a ha => (hshape a ha).elim (fun ext he => ⟨a ++ ext, he⟩))
    · intro i hi
      exact flatMap_singleton_getElem? base.rows _ hshape i hi

theorem mergeAll_preserves (base : DF) (supps : List DF)
    (h : ∀ s ∈ supps, keysUnique s) :
    (mergeAll base supps).rows.length = base.rows.length ∧
    ∀ i, i < base.rows.length →
      ∃ ext, (mergeAll base supps).rows[i]? = some ((base.rows.getD i []) ++ ext) := by
  induction supps generalizing base with
  | nil =>
    refine ⟨rfl, fun i hi => ⟨[], ?_⟩⟩
    rw [List.append_nil]
    exact getElem?_eq_getD base.rows [] i hi
  | cons s ss ih =>
    have hs := h s (List.mem_cons_self s ss)
    have hss := fun s2 hs2 => h s2 (List.mem_cons_of_mem s hs2)
    have hstep := mergeT_preserves base s hs
    have hrec := ih (mergeT base s) hss
    have hlen : (mergeAll base (s :: ss)).rows.length = base.rows.length := by
      show (mergeAll (mergeT base s) ss).rows.length = base.rows.length
      rw [hrec.1, hstep.1]
    refine ⟨hlen, fun i hi => ?_⟩
    have hi2 : i < (mergeT base s).rows.length := by rw [hstep.1]; exact hi
    rcases hrec.2 i hi2 with ⟨e2, he2⟩
    rcases hstep.2 i hi with ⟨e1, he1⟩
    have hgd : (mergeT base s).rows.getD i [] = (base.rows.getD i []) ++ e1 := by
      have := getElem?_eq_getD (mergeT base s).rows [] i hi2
      rw [this] at he1
      exact Option.some_injective _ he1
    refine ⟨e1 ++ e2, ?_⟩
    show (mergeAll (mergeT base s) ss).rows[i]? = _
    rw [he2, hgd, List.append_assoc]

theorem getCell_append_of_name_mem (r s : Row) (c : String)
    (h : ∃ e ∈ r, e.1 = c) : getCell (r ++ s) c = getCell r c := by
  rw [getCell_append]
  cases hf : r.find? (fun e => e.1 == c) with
  | some e =>
    unfold getCell
    rw [hf]
  | none =>
    exfalso
    rw [List.find?_eq_none] at hf
    rcases h with ⟨e, he, hc⟩
    exact (hf e he) (by simpa using hc)

/-! ### Column identification in the scored frames -/

theorem minmaxQ_length (l : List ℚ) : (minmaxQ l).length = l.length := by
  unfold minmaxQ
  split_ifs <;> simp

theorem nmQ_length (l : List ℚ) (b : Bool) : (nmQ l b).length = l.length := by
  simp only [nmQ]
  cases b <;> simp

theorem numCells_length (l : List ℚ) : (numCells l).length = l.length := by
  simp [numCells]

theorem gkScoreCol_length (df : DF) : (gkScoreCol df).length = df.rows.length := by
  simp [gkScoreCol]

theorem computeOutfield_colAtk (df : DF) :
    getColCells (computeOutfield df) "Attacking_Efficiency" =
      numCells (minmaxQ (df.rows.map (atkRawRow df.cols))) := by
  simp only [computeOutfield, List.foldl_cons, List.foldl_nil]
  repeat rw [getColCells_setCol_ne _ _ _ _ (by decide)]
  rw [getColCells_setCol_self _ _ _
    (by simp [numCells, minmaxQ_length, setCol_rows_length])]

theorem computeOutfield_colDef (df : DF) :
    getColCells (computeOutfield df) "Defensive_Efficiency" =
      numCells (minmaxQ (df.rows.map (defRawRow df.cols))) := by
  simp only [computeOutfield, List.foldl_cons, List.foldl_nil]
  repeat rw [getColCells_setCol_ne _ _ _ _ (by decide)]
  rw [getColCells_setCol_self _ _ _
    (by simp [numCells, minmaxQ_length, setCol_rows_length])]

theorem computeGK_colEff (df : DF) :
    getColCells (computeGK df) "GK_Efficiency" =
      numCells ((gkScoreCol df).map (roundTo 2)) := by
  simp only [computeGK]
  repeat rw [getColCells_setCol_ne _ _ _ _ (by decide)]
  rw [getColCells_setCol_self _ _ _
    (by simp [numCells, setCol_rows_length, gkScoreCol_length])]

theorem computeGK_colGA (df : DF) :
    getColCells (computeGK df) "GA_p90" =
      numCells (df.rows.map (fun r => roundTo 3 (rateRow df.cols "GA" r))) := by
  simp only [computeGK]
  repeat rw [getColCells_setCol_ne _ _ _ _ (by decide)]
  rw [getColCells_setCol_self _ _ _
    (by simp [numCells, setCol_rows_length])]

theorem computeGK_colPSxG (df : DF) :
    getColCells (computeGK df) "PSxG-GA_p90" =
      numCells (df.rows.map (fun r => roundTo 4 (rateRow df.cols "PSxG-GA" r))) := by
  simp only [computeGK]
  rw [getColCells_setCol_self _ _ _
    (by simp [numCells, setCol_rows_length])]

/-! ### Bounds for the goalkeeper composite -/

theorem nmQ_getD_bounds (l : List ℚ) (b : Bool) (i : ℕ) (hi : i < l.length) :
    0 ≤ (nmQ l b).getD i 0 ∧ (nmQ l b).getD i 0 ≤ 100 := by
  have hlen : i < (nmQ l b).length := by rw [nmQ_length]; exact hi
  have hmem : (nmQ l b).getD i 0 ∈ nmQ l b := by
    rw [List.getD_eq_getElem?_getD, List.getElem?_eq_getElem hlen, Option.getD_some]
    exact List.getElem_mem hlen
  exact mem_nmQ_bounds _ _ _ hmem

theorem mem_gkScoreCol_bounds (df : DF) (s : ℚ) (hs : s ∈ gkScoreCol df) :
    0 ≤ s ∧ s ≤ 100 := by
  simp only [gkScoreCol] at hs
  rcases List.mem_map.mp hs with ⟨i, hi, rfl⟩
  have hin : i < df.rows.length := List.mem_range.mp hi
  have h1 := nmQ_getD_bounds (df.rows.map (safeRow df.cols "Save%")) false i (by simpa using hin)
  have h2 := nmQ_getD_bounds (df.rows.map (rateRow df.cols "PSxG-GA")) false i (by simpa using hin)
  have h3 := nmQ_getD_bounds (df.rows.map (rateRow df.cols "GA")) true i (by simpa using hin)
  have h4 := nmQ_getD_bounds (df.rows.map (safeRow df.cols "CS%")) false i (by simpa using hin)
  have h5 := nmQ_getD_bounds (df.rows.map (safeRow df.cols "Cmp%")) false i (by simpa using hin)
  have h6 := nmQ_getD_bounds (df.rows.map (safeRow df.cols "Stp%")) false i (by simpa using hin)
  have h7 := nmQ_getD_bounds (df.rows.map (rateRow df.cols "#OPA")) false i (by simpa using hin)
  constructor
  · have := h1.1; have := h2.1; have := h3.1; have := h4.1
    have := h5.1; have := h6.1; have := h7.1
    positivity
  · nlinarith [h1.2, h2.2, h3.2, h4.2, h5.2, h6.2, h7.2,
      h1.1, h2.1, h3.1, h4.1, h5.1, h6.1, h7.1]

theorem foldl_max_le (xs : List ℚ) (a c : ℚ) (ha : a ≤ c)
    (h : ∀ x ∈ xs, x ≤ c) : xs.foldl max a ≤ c := by
  induction xs generalizing a with
  | nil => exact ha
  | cons x xs ih =>
    exact ih (max a x) (max_le ha (h x (List.mem_cons_self x xs)))
      (fun y hy => h y (List.mem_cons_of_mem x hy))

theorem le_foldl_min (xs : List ℚ) (a c : ℚ) (ha : c ≤ a)
    (h : ∀ x ∈ xs, c ≤ x) : c ≤ xs.foldl min a := by
  induction xs generalizing a with
  | nil => exact ha
  | cons x xs ih =>
    exact ih (min a x) (le_min ha (h x (List.mem_cons_self x xs)))
      (fun y hy => h y (List.mem_cons_of_mem x hy))

theorem sMax_eq_sMin_of_const (l : List ℚ) (c : ℚ) (h : ∀ v ∈ l, v = c) :
    sMax l = sMin l := by
  cases l with
  | nil => rfl
  | cons x xs =>
    have hx : x = c := h x (List.mem_cons_self x xs)
    have hup : sMax (x :: xs) ≤ c :=
      foldl_max_le xs x c (le_of_eq hx)
        (fun y hy => le_of_eq (h y (List.mem_cons_of_mem x hy)))
    have hlo : c ≤ sMin (x :: xs) :=
      le_foldl_min xs x c (ge_of_eq hx)
        (fun y hy => ge_of_eq (h y (List.mem_cons_of_mem x hy)))
    have hms : sMin (x :: xs) ≤ sMax (x :: xs) :=
      le_trans (sMin_le _ x (List.mem_cons_self x xs))
        (le_sMax _ x (List.mem_cons_self x xs))
    linarith

/-! ## Claim theorems -/

/-- C1 (amended): with `lo`/`hi` the batch minimum/maximum, both
normalizers map a zero-variance column — including the singleton and the
constant batch — to the constant 50; otherwise each record scores
`(value - lo) / (hi - lo) * 100`, which the outfield normalizer `minmax`
rounds to 2 decimal places while the goalkeeper normalizer `nm` leaves
unrounded. -/
theorem minmax_normalization :
    (∀ l : List ℚ, sMax l = sMin l → minmaxQ l = l.map (fun _ => 50)) ∧
    (∀ x : ℚ, minmaxQ [x] = [50]) ∧
    (∀ (l : List ℚ) (c : ℚ), (∀ v ∈ l, v = c) → minmaxQ l = l.map (fun _ => 50)) ∧
    (∀ l : List ℚ, sMax l = sMin l → nmQ l false = l.map (fun _ => 50)) ∧
    (∀ (l : List ℚ) (i : ℕ), sMax l ≠ sMin l → i < l.length →
      (minmaxQ l)[i]? =
        some (roundTo 2 ((l.getD i 0 - sMin l) / (sMax l - sMin l) * 100))) ∧
    (∀ (l : List ℚ) (i : ℕ), sMax l ≠ sMin l → i < l.length →
      (nmQ l false)[i]? =
        some ((l.getD i 0 - sMin l) / (sMax l - sMin l) * 100)) := by
  refine ⟨?_, ?_, ?_, ?_, ?_, ?_⟩
  · intro l h
    unfold minmaxQ
    rw [if_pos h]
  · intro x
    simp [minmaxQ, sMax, sMin]
  · intro l c h
    unfold minmaxQ
    rw [if_pos (sMax_eq_sMin_of_const l c h)]
  · intro l h
    have he : nmQ l false = l.map (nmVal (sMin l) (sMax l)) := by simp [nmQ]
    rw [he, h]
    refine List.map_congr_left ?_
    intro v _
    rw [nmVal, if_pos rfl]
  · intro l i h hi
    unfold minmaxQ
    rw [if_neg h, List.getElem?_map, getElem?_eq_getD l 0 i hi]
    rfl
  · intro l i h hi
    have he : nmQ l false = l.map (nmVal (sMin l) (sMax l)) := by simp [nmQ]
    rw [he, List.getElem?_map, getElem?_eq_getD l 0 i hi]
    show some (nmVal (sMin l) (sMax l) (l.getD i 0)) = _
    rw [nmVal, if_neg h]

/-- C1 counterexample: on the column `[0, 1, 3]` the goalkeeper
normalizer `nm` scores the middle record 100/3 exactly, not the claimed
2-decimal rounding 33.33. -/
theorem nm_score_not_rounded :
    (nmQ [0, 1, 3] false)[1]? = some (100/3) ∧
      roundTo 2 (100/3) = 3333/100 ∧ (100/3 : ℚ) ≠ 3333/100 := by
  refine ⟨?_, ?_, by norm_num⟩
  · simp [nmQ, nmVal, sMin, sMax, List.foldl, max_def, min_def]
    norm_num
  · have hf : ⌊(100/3 * 10 ^ 2 : ℚ)⌋ = 3333 := by
      rw [Int.floor_eq_iff]
      norm_num
    rw [roundTo, rndInt, hf]
    norm_num

/-- C1 witness: the non-degenerate `minmax` formula evaluated on the
column `[0, 1, 3]` at index 1. -/
theorem minmax_normalization_witness :
    (minmaxQ [0, 1, 3])[1]? =
      some (roundTo 2 (([0, 1, 3].getD 1 0 - sMin [0, 1, 3]) /
        (sMax [0, 1, 3] - sMin [0, 1, 3]) * 100)) :=
  minmax_normalization.2.2.2.2.1 [0, 1, 3] 1
    (by norm_num [sMax, sMin, List.foldl, max_def, min_def]) (by norm_num)

/-- C2 (confirmed): a derived per-90 rate is the coerced raw stat divided
by the exposure `max(90s, 0.01)`; a column absent from the frame reads as
0; and a record with zero minutes divides by the 0.01 floor (total, no
division error). -/
theorem per90_rate_contract (df : DF) (c : String) (i : ℕ)
    (hi : i < df.rows.length) :
    (df.rows.map (rateRow df.cols c))[i]? =
      some (safeRow df.cols c (df.rows.getD i []) /
        max (safeRow df.cols "90s" (df.rows.getD i [])) (1/100)) ∧
    (c ∉ df.cols → safeRow df.cols c (df.rows.getD i []) = 0) ∧
    (safeRow df.cols "90s" (df.rows.getD i []) = 0 →
      (df.rows.map (rateRow df.cols c))[i]? =
        some (safeRow df.cols c (df.rows.getD i []) / (1/100))) := by
  have hmain : (df.rows.map (rateRow df.cols c))[i]? =
      some (rateRow df.cols c (df.rows.getD i [])) := by
    rw [List.getElem?_map, getElem?_eq_getD df.rows [] i hi]
    rfl
  have hpos : max (safeRow df.cols "90s" (df.rows.getD i [])) (1/100) ≠ 0 := by
    have hle : (1/100 : ℚ) ≤ max (safeRow df.cols "90s" (df.rows.getD i [])) (1/100) :=
      le_max_right _ _
    intro h0
    rw [h0] at hle
    norm_num at hle
  have hrate : rateRow df.cols c (df.rows.getD i []) =
      safeRow df.cols c (df.rows.getD i []) /
        max (safeRow df.cols "90s" (df.rows.getD i [])) (1/100) := by
    unfold rateRow ninesRow p90
    rw [if_neg hpos]
  refine ⟨by rw [hmain, hrate], ?_, ?_⟩
  · intro hc
    unfold safeRow
    rw [if_neg hc]
  · intro h0
    rw [hmain, hrate, h0,
      show max (0 : ℚ) (1/100) = 1/100 from max_eq_right (by norm_num)]

theorem setCol_getCell_getD (df : DF) (c : String) (vals : List (Option Val))
    (i : ℕ) (c2 : String) (h : c2 ≠ c) :
    getCell ((setCol df c vals).rows.getD i []) c2 =
      getCell (df.rows.getD i []) c2 := by
  by_cases hi : i < df.rows.length
  · have hrow := setCol_rows_getElem? df c vals i hi
    rw [List.getD_eq_getElem?_getD, hrow, Option.getD_some]
    exact getCell_setColRow_ne _ _ _ _ h
  · have h1 : (setCol df c vals).rows.getD i [] = [] := by
      apply List.getD_eq_default
      rw [setCol_rows_length]
      omega
    have h2 : df.rows.getD i [] = [] := by
      apply List.getD_eq_default
      omega
    rw [h1, h2]

theorem computeOutfield_rows_length (df : DF) :
    (computeOutfield df).rows.length = df.rows.length := by
  simp only [computeOutfield, List.foldl_cons, List.foldl_nil, setCol_rows_length]

theorem computeOutfield_getCell_90s (df : DF) (i : ℕ) :
    getCell ((computeOutfield df).rows.getD i []) "90s" =
      getCell (df.rows.getD i []) "90s" := by
  simp only [computeOutfield, List.foldl_cons, List.foldl_nil]
  repeat rw [setCol_getCell_getD _ _ _ _ _ (by decide)]

/-- C2 witness: the zero-minute record of `dfTwo` (index 1). -/
theorem per90_rate_contract_witness :
    (dfTwo.rows.map (rateRow dfTwo.cols "Gls"))[1]? =
      some (safeRow dfTwo.cols "Gls" (dfTwo.rows.getD 1 []) /
        max (safeRow dfTwo.cols "90s" (dfTwo.rows.getD 1 [])) (1/100)) ∧
    ("Gls" ∉ dfTwo.cols → safeRow dfTwo.cols "Gls" (dfTwo.rows.getD 1 []) = 0) ∧
    (safeRow dfTwo.cols "90s" (dfTwo.rows.getD 1 []) = 0 →
      (dfTwo.rows.map (rateRow dfTwo.cols "Gls"))[1]? =
        some (safeRow dfTwo.cols "Gls" (dfTwo.rows.getD 1 []) / (1/100))) :=
  per90_rate_contract dfTwo "Gls" 1 (by norm_num [dfTwo])

/-- C8 counterexample: in `dfTwo` player B has zero minutes, yet with B
in the batch player A's `Attacking_Efficiency` is 100, while scoring the
B-free batch `dfOne` gives A exactly 50 — so the zero-minute record is
part of the batch over which min-max takes its minimum and maximum, and
its presence changes the other scores. -/
theorem zero_minute_player_in_scoring_batch :
    safeRow dfTwo.cols "90s" (dfTwo.rows.getD 1 []) = 0 ∧
    getColCells (computeOutfield dfTwo) "Attacking_Efficiency" =
      [some (.num 100), some (.num 0)] ∧
    getColCells (computeOutfield dfOne) "Attacking_Efficiency" =
      [some (.num 50)] := by
  refine ⟨?_, ?_, ?_⟩
  · simp [safeRow, getCell, cellNum, dfTwo, rowOf, List.find?]
  · rw [computeOutfield_colAtk]
    have hmap : dfTwo.rows.map (atkRawRow dfTwo.cols) = [1/5, 0] := by
      simp [atkRawRow, rateRow, safeRow, ninesRow, p90, getCell, cellNum, dfTwo,
        rowOf, List.find?, max_def]
      norm_num
    rw [hmap]
    have hmm : minmaxQ [1/5, 0] = [100, 0] := by
      have hf1 : ⌊(((1:ℚ)/5 - 0) / (1/5 - 0) * 100 * 10 ^ 2 : ℚ)⌋ = 10000 := by
        norm_num
      simp only [minmaxQ, sMin, sMax, List.foldl, max_def, min_def]
      norm_num [roundTo, rndInt]
    rw [hmm]
    simp [numCells]
  · rw [computeOutfield_colAtk]
    have hmap : dfOne.rows.map (atkRawRow dfOne.cols) = [1/5] := by
      simp [atkRawRow, rateRow, safeRow, ninesRow, p90, getCell, cellNum, dfOne,
        rowOf, List.find?, max_def]
      norm_num
    rw [hmap]
    have hmm : minmaxQ [1/5] = [50] := by
      simp [minmaxQ, sMin, sMax]
    rw [hmm]
    simp [numCells]

/-- C8 (amended): a zero-minute record is not excluded before scoring —
the min-max batch spans every row of the built frame, the zero-minute
record receives a scored row, and only the post-scoring min-exposure
filter in `main` drops it. -/
theorem zero_minutes_filtered_after_scoring (df : DF) (i : ℕ)
    (hi : i < df.rows.length)
    (hz : cellNum (getCell (df.rows.getD i []) "90s") = 0) :
    (minmaxQ (df.rows.map (atkRawRow df.cols))).length = df.rows.length ∧
    ∃ r', (computeOutfield df).rows[i]? = some r' ∧
      getCell r' "90s" = getCell (df.rows.getD i []) "90s" ∧
      r' ∉ (filterMin90 (computeOutfield df)).rows := by
  constructor
  · rw [minmaxQ_length, List.length_map]
  · have hi2 : i < (computeOutfield df).rows.length := by
      rw [computeOutfield_rows_length]
      exact hi
    refine ⟨(computeOutfield df).rows.getD i [], getElem?_eq_getD _ [] i hi2, ?_, ?_⟩
    · exact computeOutfield_getCell_90s df i
    · intro hmem
      simp only [filterMin90] at hmem
      have hpred := (List.mem_filter.mp hmem).2
      rw [computeOutfield_getCell_90s df i, hz] at hpred
      norm_num [MIN_90S] at hpred

/-- C8 witness: the amended statement at the zero-minute record of
`dfTwo`. -/
theorem zero_minutes_filtered_after_scoring_witness :
    (minmaxQ (dfTwo.rows.map (atkRawRow dfTwo.cols))).length = dfTwo.rows.length ∧
    ∃ r', (computeOutfield dfTwo).rows[1]? = some r' ∧
      getCell r' "90s" = getCell (dfTwo.rows.getD 1 []) "90s" ∧
      r' ∉ (filterMin90 (computeOutfield dfTwo)).rows :=
  zero_minutes_filtered_after_scoring dfTwo 1 (by norm_num [dfTwo])
    (by simp [getCell, cellNum, dfTwo, rowOf, List.find?])

/-- C9 (amended): every stored per-90 rate field is the rate rounded to
3 decimal places — except the goalkeeper `PSxG-GA_p90`, which the code
rounds to 4 decimal places. -/
theorem per90_rates_stored_rounded (df : DF) :
    getColCells (computeOutfield df) "Goals_p90" =
      numCells (df.rows.map (fun r => roundTo 3 (rateRow df.cols "Gls" r))) ∧
    getColCells (computeOutfield df) "xG_p90" =
      numCells (df.rows.map (fun r => roundTo 3 (rateRow df.cols "xG" r))) ∧
    getColCells (computeOutfield df) "Assists_p90" =
      numCells (df.rows.map (fun r => roundTo 3 (rateRow df.cols "Ast" r))) ∧
    getColCells (computeOutfield df) "xAG_p90" =
      numCells (df.rows.map (fun r => roundTo 3 (rateRow df.cols "xAG" r))) ∧
    getColCells (computeOutfield df) "SoT_p90" =
      numCells (df.rows.map (fun r => roundTo 3 (rateRow df.cols "SoT" r))) ∧
    getColCells (computeOutfield df) "KeyPasses_p90" =
      numCells (df.rows.map (fun r => roundTo 3 (rateRow df.cols "KP" r))) ∧
    getColCells (computeOutfield df) "ProgPasses_p90" =
      numCells (df.rows.map (fun r => roundTo 3 (rateRow df.cols "PrgP" r))) ∧
    getColCells (computeOutfield df) "ProgCarries_p90" =
      numCells (df.rows.map (fun r => roundTo 3 (rateRow df.cols "PrgC" r))) ∧
    getColCells (computeOutfield df) "Tkl_Won_p90" =
      numCells (df.rows.map (fun r => roundTo 3 (rateRow df.cols "TklW" r))) ∧
    getColCells (computeOutfield df) "Interceptions_p90" =
      numCells (df.rows.map (fun r => roundTo 3 (rateRow df.cols "Int" r))) ∧
    getColCells (computeOutfield df) "Blocks_p90" =
      numCells (df.rows.map (fun r => roundTo 3 (rateRow df.cols "Blocks" r))) ∧
    getColCells (computeOutfield df) "Clearances_p90" =
      numCells (df.rows.map (fun r => roundTo 3 (rateRow df.cols "Clr" r))) ∧
    getColCells (computeOutfield df) "Pressures_p90" =
      numCells (df.rows.map (fun r => roundTo 3 (rateRow df.cols "Press" r))) ∧
    getColCells (computeGK df) "GA_p90" =
      numCells (df.rows.map (fun r => roundTo 3 (rateRow df.cols "GA" r))) ∧
    getColCells (computeGK df) "PSxG-GA_p90" =
      numCells (df.rows.map (fun r => roundTo 4 (rateRow df.cols "PSxG-GA" r))) := by
  refine ⟨?_, ?_, ?_, ?_, ?_, ?_, ?_, ?_, ?_, ?_, ?_, ?_, ?_,
    computeGK_colGA df, computeGK_colPSxG df⟩ <;>
  · simp only [computeOutfield, List.foldl_cons, List.foldl_nil]
    repeat rw [getColCells_setCol_ne _ _ _ _ (by decide)]
    rw [getColCells_setCol_self _ _ _
      (by simp [numCells, minmaxQ_length, setCol_rows_length])]

/-- C9 counterexample: the stored `PSxG-GA_p90` cell of `dfGKfix` is
0.3333, the 4-decimal rounding of the rate 1/3, and differs from the
3-decimal rounding 0.333 the claim requires. -/
theorem psxg_rate_rounded_to_4 :
    (getColCells (computeGK dfGKfix) "PSxG-GA_p90")[0]? =
      some (some (.num (3333/10000))) ∧
    rateRow dfGKfix.cols "PSxG-GA" (dfGKfix.rows.getD 0 []) = 1/3 ∧
    roundTo 3 (1/3) = 333/1000 ∧ (3333/10000 : ℚ) ≠ 333/1000 := by
  have hrate : rateRow dfGKfix.cols "PSxG-GA" (dfGKfix.rows.getD 0 []) = 1/3 := by
    simp [rateRow, safeRow, ninesRow, p90, getCell, cellNum, dfGKfix,
      List.find?, max_def]
    norm_num
  have hround4 : roundTo 4 (1/3 : ℚ) = 3333/10000 := by
    have hf : ⌊((1 : ℚ)/3 * 10 ^ 4)⌋ = 3333 := by
      rw [Int.floor_eq_iff]
      norm_num
    rw [roundTo, rndInt, hf]
    norm_num
  have hround3 : roundTo 3 (1/3 : ℚ) = 333/1000 := by
    have hf : ⌊((1 : ℚ)/3 * 10 ^ 3)⌋ = 333 := by
      rw [Int.floor_eq_iff]
      norm_num
    rw [roundTo, rndInt, hf]
    norm_num
  refine ⟨?_, hrate, hround3, by norm_num⟩
  rw [computeGK_colPSxG, numCells, List.getElem?_map, List.getElem?_map,
    getElem?_eq_getD dfGKfix.rows [] 0 (by norm_num [dfGKfix])]
  simp only [Option.map_some']
  rw [hrate, hround4]

/-- C3 (confirmed): every `Attacking_Efficiency`, `Defensive_Efficiency`
and weighted `GK_Efficiency` cell stored by the scorers is a number
between 0 and 100 inclusive. -/
theorem efficiency_scores_in_range (df : DF) :
    (∀ cell ∈ getColCells (computeOutfield df) "Attacking_Efficiency",
      ∃ q : ℚ, cell = some (.num q) ∧ 0 ≤ q ∧ q ≤ 100) ∧
    (∀ cell ∈ getColCells (computeOutfield df) "Defensive_Efficiency",
      ∃ q : ℚ, cell = some (.num q) ∧ 0 ≤ q ∧ q ≤ 100) ∧
    (∀ cell ∈ getColCells (computeGK df) "GK_Efficiency",
      ∃ q : ℚ, cell = some (.num q) ∧ 0 ≤ q ∧ q ≤ 100) := by
  refine ⟨?_, ?_, ?_⟩
  · intro cell hcell
    rw [computeOutfield_colAtk] at hcell
    rcases List.mem_map.mp hcell with ⟨q, hq, rfl⟩
    exact ⟨q, rfl, mem_minmaxQ_bounds _ q hq⟩
  · intro cell hcell
    rw [computeOutfield_colDef] at hcell
    rcases List.mem_map.mp hcell with ⟨q, hq, rfl⟩
    exact ⟨q, rfl, mem_minmaxQ_bounds _ q hq⟩
  · intro cell hcell
    rw [computeGK_colEff] at hcell
    rcases List.mem_map.mp hcell with ⟨q, hq, rfl⟩
    rcases List.mem_map.mp hq with ⟨s, hs, rfl⟩
    have hb := mem_gkScoreCol_bounds df s hs
    refine ⟨roundTo 2 s, rfl, roundTo_nonneg _ _ hb.1, ?_⟩
    have := roundTo_le_int 2 s 100 (by exact_mod_cast hb.2)
    exact_mod_cast this

/-- C4 (confirmed): with the identity key unique in every table, the
folded merger keeps the base row count exactly; each merged row extends
the corresponding base row on the right, so every column present in the
base row keeps the base table's value; and empty supplements are skipped
unchanged. -/
theorem merge_left_join_contract (base : DF) (supps : List DF)
    (_hb : keysUnique base) (hs : ∀ s ∈ supps, keysUnique s) :
    (mergeAll base supps).rows.length = base.rows.length ∧
    (∀ i, i < base.rows.length → ∃ ext,
      (mergeAll base supps).rows[i]? = some ((base.rows.getD i []) ++ ext) ∧
      ∀ c, (∃ e ∈ base.rows.getD i [], e.1 = c) →
        getCell ((base.rows.getD i []) ++ ext) c =
          getCell (base.rows.getD i []) c) ∧
    (∀ b s : DF, dfEmpty s = true → mergeT b s = b) := by
  refine ⟨(mergeAll_preserves base supps hs).1, ?_, ?_⟩
  · intro i hi
    rcases (mergeAll_preserves base supps hs).2 i hi with ⟨ext, hext⟩
    exact ⟨ext, hext, fun c hc => getCell_append_of_name_mem _ _ c hc⟩
  · intro b s hes
    unfold mergeT
    rw [if_pos hes]

/-- C4 witness: the contract at `base3` merged with a colliding
supplement and an empty supplement. -/
theorem merge_left_join_contract_witness :
    (mergeAll base3 [supp1, emptyDF]).rows.length = base3.rows.length ∧
    (∀ i, i < base3.rows.length → ∃ ext,
      (mergeAll base3 [supp1, emptyDF]).rows[i]? =
        some ((base3.rows.getD i []) ++ ext) ∧
      ∀ c, (∃ e ∈ base3.rows.getD i [], e.1 = c) →
        getCell ((base3.rows.getD i []) ++ ext) c =
          getCell (base3.rows.getD i []) c) ∧
    (∀ b s : DF, dfEmpty s = true → mergeT b s = b) :=
  merge_left_join_contract base3 [supp1, emptyDF] (by decide)
    (by intro s hs; fin_cases hs <;> decide)

/-- C6 counterexample: with the goalkeeper base table empty (and the
advanced table populated), `build_gk` returns the empty frame through its
normal path — no error of any kind is signalled for that class. -/
theorem empty_gk_base_no_error :
    buildGK rawGkEmpty = .ok emptyDF ∧ ∀ e, buildGK rawGkEmpty ≠ .error e := by
  have h : buildGK rawGkEmpty = .ok emptyDF := by
    simp [buildGK, rawGkEmpty, rawGet, List.find?, emptyDF, dfEmpty]
  refine ⟨h, fun e he => ?_⟩
  rw [h] at he
  cases he

/-- C6 (amended): an empty standard table makes `build_outfield` raise an
error which `main` confines to the outfield class; an empty goalkeeper
base table instead yields an empty frame from `build_gk` with no error
signalled; and each class's `main` processing reads only its own class's
tables, so the other class always runs to completion. -/
theorem missing_base_table_behavior :
    (∀ raw, dfEmpty (rawGet raw "standard") = true →
      buildOutfield raw = .error .missingBase ∧ mainOutfield raw = emptyDF) ∧
    (∀ raw, dfEmpty (rawGet raw "gk") = true → buildGK raw = .ok emptyDF) ∧
    (∀ raw1 raw2, rawGet raw1 "gk" = rawGet raw2 "gk" →
      rawGet raw1 "gk_adv" = rawGet raw2 "gk_adv" →
      mainGK raw1 = mainGK raw2) ∧
    (∀ raw1 raw2, rawGet raw1 "standard" = rawGet raw2 "standard" →
      rawGet raw1 "shooting" = rawGet raw2 "shooting" →
      rawGet raw1 "passing" = rawGet raw2 "passing" →
      rawGet raw1 "defense" = rawGet raw2 "defense" →
      rawGet raw1 "possession" = rawGet raw2 "possession" →
      mainOutfield raw1 = mainOutfield raw2) := by
  refine ⟨?_, ?_, ?_, ?_⟩
  · intro raw h
    have hb : buildOutfield raw = .error .missingBase := by
      simp [buildOutfield, h]
    refine ⟨hb, ?_⟩
    unfold mainOutfield
    rw [hb]
  · intro raw h
    simp [buildGK, h]
  · intro r1 r2 h1 h2
    have hb : buildGK r1 = buildGK r2 := by
      unfold buildGK
      rw [h1, h2]
    unfold mainGK
    rw [hb]
  · intro r1 r2 h1 h2 h3 h4 h5
    have hb : buildOutfield r1 = buildOutfield r2 := by
      unfold buildOutfield
      rw [h1, h2, h3, h4, h5]
    unfold mainOutfield
    rw [hb]

/-- C6 witness: the amended behavior at concrete inputs with each base
table empty. -/
theorem missing_base_table_behavior_witness :
    (buildOutfield rawStdEmpty = .error .missingBase ∧
      mainOutfield rawStdEmpty = emptyDF) ∧
    buildGK rawGkEmpty = .ok emptyDF :=
  ⟨missing_base_table_behavior.1 rawStdEmpty (by decide),
   missing_base_table_behavior.2.1 rawGkEmpty (by decide)⟩

/-- C7 counterexample: filtering removes the only record of `dfBelow`,
yet the exporter returns normally — no error — and writes a header-only
file rather than writing nothing. -/
theorem empty_export_writes_header_file :
    exportCsv dfBelow ["Player", "90s", "Eff"] "Eff" 1 =
      .ok ⟨some (["Player", "90s", "Eff"], []), ⟨["Player", "90s", "Eff"], []⟩⟩ := by
  rfl

/-- C7 (amended): when the exposure filter removes every record the
exporter still writes a file consisting of the header alone and returns
the empty frame; no error is signalled (the only raising path is a
missing sort column). -/
theorem empty_filter_result_still_written (df : DF) (colOrder : List String)
    (sortCol : String) (m : ℚ)
    (hs : sortCol ∈ colOrder.filter (fun c => decide (c ∈ df.cols)))
    (h90 : "90s" ∈ colOrder.filter (fun c => decide (c ∈ df.cols)))
    (hempty : (df.rows.map (projectRow
        (colOrder.filter (fun c => decide (c ∈ df.cols))))).filter
        (fun r => decide (m ≤ cellNum (getCell r "90s"))) = []) :
    exportCsv df colOrder sortCol m =
      .ok ⟨some (colOrder.filter (fun c => decide (c ∈ df.cols)), []),
           ⟨colOrder.filter (fun c => decide (c ∈ df.cols)), []⟩⟩ := by
  simp only [exportCsv]
  rw [if_pos h90, hempty, if_pos hs]
  rfl

/-- C7 witness: the amended statement at `dfBelow`. -/
theorem empty_filter_result_still_written_witness :
    exportCsv dfBelow ["Player", "90s", "Eff"] "Eff" 1 =
      .ok ⟨some ((["Player", "90s", "Eff"] : List String).filter
            (fun c => decide (c ∈ dfBelow.cols)), []),
           ⟨(["Player", "90s", "Eff"] : List String).filter
            (fun c => decide (c ∈ dfBelow.cols)), []⟩⟩ :=
  empty_filter_result_still_written dfBelow ["Player", "90s", "Eff"] "Eff" 1
    (by decide) (by decide) (by decide)

/-- C10 (confirmed): when the projected column order carries no `90s`
column the exposure filter is skipped: the exported rows are a
permutation of all projected rows, one per input record, regardless of
playing time. -/
theorem export_without_90s_keeps_all (df : DF) (colOrder : List String)
    (sortCol : String) (m : ℚ)
    (h90 : "90s" ∉ colOrder)
    (hs : sortCol ∈ colOrder.filter (fun c => decide (c ∈ df.cols))) :
    ∃ out : ExportOut, exportCsv df colOrder sortCol m = .ok out ∧
      out.result.rows.Perm
        (df.rows.map (projectRow (colOrder.filter (fun c => decide (c ∈ df.cols))))) ∧
      out.result.rows.length = df.rows.length := by
  have h90a : "90s" ∉ colOrder.filter (fun c => decide (c ∈ df.cols)) :=
    fun hm => h90 (List.mem_filter.mp hm).1
  simp only [exportCsv]
  rw [if_neg h90a, if_pos hs]
  refine ⟨_, rfl, ?_, ?_⟩
  · have h := nargsortDesc_perm
      ((df.rows.map (projectRow (colOrder.filter (fun c => decide (c ∈ df.cols))))).map
        (fun r => cellNum (getCell r sortCol)))
    rw [List.length_map] at h
    exact perm_filterMap_range _ _ h
  · have h := nargsortDesc_perm
      ((df.rows.map (projectRow (colOrder.filter (fun c => decide (c ∈ df.cols))))).map
        (fun r => cellNum (getCell r sortCol)))
    rw [List.length_map] at h
    have hp := perm_filterMap_range _ _ h
    rw [hp.length_eq, List.length_map]

/-- C10 witness: exporting `dfExp` with a column order lacking `90s`
keeps all four records, including the zero-exposure one. -/
theorem export_without_90s_keeps_all_witness :
    ∃ out : ExportOut, exportCsv dfExp ["Player", "Eff"] "Eff" 1 = .ok out ∧
      out.result.rows.Perm
        (dfExp.rows.map (projectRow ((["Player", "Eff"] : List String).filter
          (fun c => decide (c ∈ dfExp.cols))))) ∧
      out.result.rows.length = dfExp.rows.length :=
  export_without_90s_keeps_all dfExp ["Player", "Eff"] "Eff" 1
    (by decide) (by decide)

end MLS
